import Mathlib

/- Verification of the core of the gopc package (Open Packaging Convention,
   ISO/IEC 29500-2): the content-type table, the part registry with its
   prefix-collision check, and relationships.

   Go strings are modelled as lists of characters (`Str`).  All strings the
   package manipulates are UTF-8, and Go's byte-wise comparisons coincide
   with character-wise comparisons on valid UTF-8, so this model is faithful
   for every input of interest. -/

abbrev Str := List Char

deriving instance DecidableEq for Except

namespace gopc

/-- Models Go `strings.ToUpper` for ASCII letters (the only case change the
package relies on; part names are ASCII after normalization). -/
def asciiUpperChar (c : Char) : Char :=
  if 'a' ≤ c ∧ c ≤ 'z' then Char.ofNat (c.toNat - 32) else c

/-- Models Go `strings.ToLower` for ASCII letters. -/
def asciiLowerChar (c : Char) : Char :=
  if 'A' ≤ c ∧ c ≤ 'Z' then Char.ofNat (c.toNat + 32) else c

def asciiUpper (s : Str) : Str := s.map asciiUpperChar

def asciiLower (s : Str) : Str := s.map asciiLowerChar

/-- ASCII white space, as recognized by Go `strings.TrimSpace` on the inputs
of interest. -/
def isGoSpace (c : Char) : Bool := c = ' ' || c = '\t' || c = '\n' || c = '\r'

/-- Models Go `strings.TrimSpace`. -/
def trimSpace (s : Str) : Str :=
  ((s.dropWhile isGoSpace).reverse.dropWhile isGoSpace).reverse

/-- Models Go `strings.Split(s, sep)` for a one-character separator:
`splitOnChar sep [] = [[]]`, matching `strings.Split("", sep) = [""]`. -/
def splitOnChar (sep : Char) : Str → List Str
  | [] => [[]]
  | c :: rest =>
    let r := splitOnChar sep rest
    if c = sep then [] :: r
    else
      match r with
      | [] => [[c]]
      | s :: ss => (c :: s) :: ss

/-- Scan of the reversed final path element looking for its first dot
(that is, the last dot of the original element). -/
def goExtAux (collected : Str) : Str → Str
  | [] => []
  | c :: rest => if c = '.' then c :: collected else goExtAux (c :: collected) rest

/-- Models Go `filepath.Ext` (Unix separators): the suffix of the final
slash-separated element beginning at its last dot, or `""` when the final
element has no dot. -/
def goExt (path : Str) : Str :=
  goExtAux [] (path.reverse.takeWhile (fun c => c ≠ '/'))

/-- Models a lookup `v, ok := m[k]` in a Go `map[string]T`, with the map
represented as an association list whose keys are distinct. -/
def mapFind {α : Type} (m : List (Str × α)) (k : Str) : Option α :=
  match m with
  | [] => none
  | (k2, v) :: t => if k2 = k then some v else mapFind t k

/-- Models an assignment `m[k] = v` in a Go `map[string]T`: replaces the
value of an existing key and otherwise adds the entry. -/
def mapInsert {α : Type} (m : List (Str × α)) (k : Str) (v : α) : List (Str × α) :=
  match m with
  | [] => [(k, v)]
  | (k2, v2) :: t => if k2 = k then (k2, v) :: t else (k2, v2) :: mapInsert t k v

/-- Strict byte-wise (here: character-wise) order on strings, as used by
Go `sort.Strings`. -/
def strLt : Str → Str → Bool
  | [], [] => false
  | [], _ :: _ => true
  | _ :: _, [] => false
  | a :: as, b :: bs =>
    if a.toNat < b.toNat then true
    else if b.toNat < a.toNat then false
    else strLt as bs

def strLe (a b : Str) : Bool := ! strLt b a

/-- Insertion step of the sort below. -/
def insertSorted (s : Str) : List Str → List Str
  | [] => [s]
  | t :: ts => if strLe s t then s :: t :: ts else t :: insertSorted s ts

/-- Models Go `sort.Strings`: the ordered rearrangement of the input.
(Insertion sort; `sort.Strings` produces the same ordered list since the
byte-wise order is total and antisymmetric.) -/
def sortStrings : List Str → List Str
  | [] => []
  | s :: ss => insertSorted s (sortStrings ss)

theorem mem_insertSorted {a s : Str} {l : List Str} :
    a ∈ insertSorted s l ↔ a = s ∨ a ∈ l := by
  induction l with
  | nil => simp [insertSorted]
  | cons t ts ih =>
    simp only [insertSorted]
    split
    · simp [List.mem_cons]
    · simp only [List.mem_cons, ih]
      tauto

theorem mem_sortStrings {a : Str} {l : List Str} :
    a ∈ sortStrings l ↔ a ∈ l := by
  induction l with
  | nil => simp [sortStrings]
  | cons s ss ih => simp [sortStrings, mem_insertSorted, ih]

theorem mapFind_eq_none_of_not_mem {α : Type} {m : List (Str × α)} {k : Str}
    (h : k ∉ m.map Prod.fst) : mapFind m k = none := by
  induction m with
  | nil => rfl
  | cons p t ih =>
    simp only [List.map_cons, List.mem_cons] at h
    push_neg at h
    simp only [mapFind]
    rw [if_neg (fun he => h.1 he.symm)]
    exact ih h.2

theorem mapInsert_eq_append_of_not_mem {α : Type} {m : List (Str × α)} {k : Str} {v : α}
    (h : k ∉ m.map Prod.fst) : mapInsert m k v = m ++ [(k, v)] := by
  induction m with
  | nil => rfl
  | cons p t ih =>
    simp only [List.map_cons, List.mem_cons] at h
    push_neg at h
    simp only [mapInsert]
    rw [if_neg (fun he => h.1 he.symm), ih h.2]
    simp

/-- A permutation of an association list with distinct keys has the same
lookup function; this is what makes the unspecified iteration order of a Go
map harmless wherever entries are only looked up afterwards. -/
theorem mapFind_perm {α : Type} {m1 m2 : List (Str × α)} (p : m1.Perm m2)
    (nd : (m1.map Prod.fst).Nodup) (k : Str) : mapFind m1 k = mapFind m2 k := by
  induction p with
  | nil => rfl
  | cons x _ ih =>
    simp only [List.map_cons, List.nodup_cons] at nd
    simp only [mapFind]
    split
    · rfl
    · exact ih nd.2
  | swap x y l =>
    simp only [List.map_cons, List.nodup_cons, List.mem_cons] at nd
    push_neg at nd
    simp only [mapFind]
    by_cases hy : y.1 = k
    · by_cases hx : x.1 = k
      · exact absurd (hy.trans hx.symm) nd.1.1
      · rw [if_pos hy, if_neg hx, if_pos hy]
    · by_cases hx : x.1 = k
      · rw [if_neg hy, if_pos hx, if_pos hx]
      · rw [if_neg hy, if_neg hx, if_neg hx, if_neg hy]
  | trans p1 _ ih1 ih2 =>
    have nd2 := ((p1.map Prod.fst).nodup_iff).mp nd
    exact (ih1 nd).trans (ih2 nd2)

theorem mapFind_mapInsert_self {α : Type} (m : List (Str × α)) (k : Str) (v : α) :
    mapFind (mapInsert m k v) k = some v := by
  induction m with
  | nil => simp [mapInsert, mapFind]
  | cons p t ih =>
    simp only [mapInsert]
    by_cases h : p.1 = k
    · rw [if_pos h]
      simp only [mapFind]
      rw [if_pos h]
    · rw [if_neg h]
      simp only [mapFind]
      rw [if_neg h]
      exact ih

/-- Models Go `strings.Cut(s, sep)` for a one-character separator: the part
before the first occurrence, and the part after it when one exists. -/
def cutAtFirst (sep : Char) : Str → Str × Option Str
  | [] => ([], none)
  | c :: rest =>
    if c = sep then ([], some rest)
    else
      let r := cutAtFirst sep rest
      (c :: r.1, r.2)

/-- Insertion step of `sortParams`. -/
def sortParamsInsert (p : Str × Str) : List (Str × Str) → List (Str × Str)
  | [] => [p]
  | q :: qs => if strLe p.1 q.1 then p :: q :: qs else q :: sortParamsInsert p qs

/-- Parameters sorted by attribute name, as Go `mime.FormatMediaType` emits
them. -/
def sortParams : List (Str × Str) → List (Str × Str)
  | [] => []
  | p :: ps => sortParamsInsert p (sortParams ps)

/-- Models the composition of Go `mime.ParseMediaType` and
`mime.FormatMediaType` as used in `contentTypes.add`, for well-formed media
types whose parameter values are plain tokens (the source documents the
behaviour on an invalid content type as undefined): the `type/subtype` token
and the attribute names are lowercased and trimmed, and the parameters are
re-emitted sorted by attribute name, each as `"; attribute=value"`. -/
def canonicalizeContentType (s : Str) : Str :=
  match splitOnChar ';' s with
  | [] => []
  | base :: params =>
    let b := asciiLower (trimSpace base)
    let ps := params.map fun p =>
      let c := cutAtFirst '=' (trimSpace p)
      (asciiLower (trimSpace c.1), c.2.getD [])
    b ++ ((sortParams ps).map fun p => ';' :: ' ' :: (p.1 ++ '=' :: p.2)).flatten

/-- The two maps of the content-type table: `defaults` keyed by extension,
`overrides` keyed by part name.  Go's `nil` maps behave as empty maps on
lookup, so both are plain association lists here and the
`ensureDefaultsMap`/`ensureOverridesMap` lazy initializations are no-ops. -/
structure contentTypes where
  defaults : List (Str × Str)
  overrides : List (Str × Str)
deriving DecidableEq

def contentTypes.addOverride (c : contentTypes) (partName contentType : Str) : contentTypes :=
  { c with overrides := mapInsert c.overrides partName contentType }

def contentTypes.addDefault (c : contentTypes) (extension contentType : Str) : contentTypes :=
  { c with defaults := mapInsert c.defaults extension contentType }

/-- `contentTypes.add` from the source (which always returns a nil error, so
the model returns just the updated table): canonicalize the content type; a
name without extension always gets an override; otherwise an existing
different default causes an override for this name, an existing equal
default causes no change, and a missing default is registered. -/
def contentTypes.add (c : contentTypes) (partName contentType : Str) : contentTypes :=
  let ct := canonicalizeContentType contentType
  let ext := asciiLower (goExt partName)
  if ext.length = 0 then c.addOverride partName ct
  else
    let ext2 := ext.drop 1
    match mapFind c.defaults ext2 with
    | some currentType => if currentType ≠ ct then c.addOverride partName ct else c
    | none => c.addDefault ext2 ct

/-- The error of code 208 returned by `findType`. -/
inductive CtErr
  | notFound
deriving DecidableEq

/-- `contentTypes.findType` from the source: an override looked up under the
uppercased name wins; otherwise the default under the name's extension
(taken verbatim, without the dot); otherwise error 208. -/
def contentTypes.findType (c : contentTypes) (name : Str) : Except CtErr Str :=
  match mapFind c.overrides (asciiUpper name) with
  | some t => Except.ok t
  | none =>
    let ext := goExt name
    if ext ≠ [] then
      match mapFind c.defaults (ext.drop 1) with
      | some t => Except.ok t
      | none => Except.error CtErr.notFound
    else Except.error CtErr.notFound

/-- One child element of the serialized `Types` element:
`CTEntry.dflt` is a `Default{Extension, ContentType}` element and
`CTEntry.ovrd` an `Override{PartName, ContentType}` element.  The XML
encoder/decoder pair is an external collaborator and is modelled as the
identity on this element list. -/
inductive CTEntry
  | dflt (extension contentType : Str)
  | ovrd (partName contentType : Str)
deriving DecidableEq

/-- `contentTypes.toXML` from the source.  The Go code ranges over the two
maps, whose iteration order is unspecified (and randomized between runs), so
the model takes the two iteration orders as arguments; a run of the program
corresponds to some pair of permutations `orderD` of `defaults` and `orderO`
of `overrides`. -/
def contentTypes.toXML (_c : contentTypes) (orderD orderO : List (Str × Str)) : List CTEntry :=
  orderD.map (fun e => CTEntry.dflt e.1 e.2) ++ orderO.map (fun e => CTEntry.ovrd e.1 e.2)

/-- Errors of codes 206 (empty extension) and 205 (duplicated entry) from
`decodeContentTypes`. -/
inductive CTDecodeErr
  | emptyExtension
  | duplicated
deriving DecidableEq

/-- The loop body of `decodeContentTypes`: defaults are stored under the
lowercased extension, overrides under the uppercased part name, each
rejecting an already-present key. -/
def decodeEntries (ct : contentTypes) : List CTEntry → Except CTDecodeErr contentTypes
  | [] => Except.ok ct
  | CTEntry.dflt ext t :: rest =>
    let extL := asciiLower ext
    if extL = [] then Except.error CTDecodeErr.emptyExtension
    else if (mapFind ct.defaults extL).isSome then Except.error CTDecodeErr.duplicated
    else decodeEntries (ct.addDefault extL t) rest
  | CTEntry.ovrd pn t :: rest =>
    let pnU := asciiUpper pn
    if (mapFind ct.overrides pnU).isSome then Except.error CTDecodeErr.duplicated
    else decodeEntries (ct.addOverride pnU t) rest

/-- `decodeContentTypes` from the source, at the level of the decoded
element list. -/
def decodeContentTypes (entries : List CTEntry) : Except CTDecodeErr contentTypes :=
  decodeEntries ⟨[], []⟩ entries


def isAsciiAlpha (c : Char) : Bool := ('a' ≤ c && c ≤ 'z') || ('A' ≤ c && c ≤ 'Z')

def isAsciiDigit (c : Char) : Bool := '0' ≤ c && c ≤ '9'

def isAsciiAlnum (c : Char) : Bool := isAsciiAlpha c || isAsciiDigit c

def isUpperHexDigit (c : Char) : Bool := isAsciiDigit c || ('A' ≤ c && c ≤ 'F')

def hexDigitVal (c : Char) : Nat :=
  if isAsciiDigit c then c.toNat - 48
  else if 'A' ≤ c && c ≤ 'F' then c.toNat - 55
  else if 'a' ≤ c && c ≤ 'f' then c.toNat - 87
  else 0

/-- An ASCII byte value that is an `unreserved` URI character
(`ALPHA / DIGIT / "-" / "." / "_" / "~"`). -/
def isUnreservedByte (v : Nat) : Bool :=
  (48 ≤ v && v ≤ 57) || (65 ≤ v && v ≤ 90) || (97 ≤ v && v ≤ 122) ||
  v = 45 || v = 46 || v = 95 || v = 126

/-- A character a part-name segment may contain unescaped (`pchar` of RFC
3986 without percent-escapes: unreserved, sub-delims, `:` and `@`). -/
def isPCharUnescaped (c : Char) : Bool :=
  isAsciiAlnum c || c = '-' || c = '.' || c = '_' || c = '~' ||
  c = '!' || c = '$' || c = '&' || c = Char.ofNat 39 || c = '(' || c = ')' ||
  c = '*' || c = '+' || c = ',' || c = ';' || c = '=' || c = ':' || c = '@'

/-- A percent-escape that a valid part name must not contain: an escape of an
unreserved character (which the canonical form leaves unescaped), or an
ambiguous escape of `/` (0x2F) or `\` (0x5C). -/
def escapedByteForbidden (a b : Char) : Bool :=
  let v := hexDigitVal a * 16 + hexDigitVal b
  isUnreservedByte v || v = 47 || v = 92

/-- Character-level validity of one part-name segment: unescaped characters
must be `pchar` characters, and escapes must be two uppercase hex digits not
denoting an unreserved character, `/` or `\`. -/
def validSegChars : Str → Bool
  | [] => true
  | '%' :: a :: b :: rest =>
    isUpperHexDigit a && isUpperHexDigit b && ! escapedByteForbidden a b && validSegChars rest
  | '%' :: _ => false
  | c :: rest => isPCharUnescaped c && validSegChars rest

/-- Modelled from the spec: the repository's part-name validation
(`Part.validate`'s name checks, spec §4.1) is not among the provided source
files.  Following the spec's words: the name must be non-empty and not
whitespace-only, start with `/`, not end in `/` or `.`, and every segment
must be non-empty, differ from `.` and `..`, and contain only legal
characters and escapes (`validSegChars`). -/
def validPartName (n : Str) : Bool :=
  decide (n ≠ []) && decide (trimSpace n ≠ []) &&
  decide (n.head? = some '/') &&
  ! (decide (n.getLast? = some '/')) && ! (decide (n.getLast? = some '.')) &&
  (splitOnChar '/' (n.drop 1)).all fun seg =>
    decide (seg ≠ []) && decide (seg ≠ ['.']) && decide (seg ≠ ['.', '.']) && validSegChars seg

/-- A character allowed in an HTTP token (RFC 1521 `token`, as accepted by
Go `mime.ParseMediaType` for type, subtype and attribute names). -/
def isTokenChar (c : Char) : Bool :=
  isAsciiAlnum c || c = '!' || c = '#' || c = '$' || c = '%' || c = '&' ||
  c = Char.ofNat 39 || c = '*' || c = '+' || c = '-' || c = '.' || c = '^' ||
  c = '_' || c = Char.ofNat 96 || c = '|' || c = '~'

/-- Parameter validation of a media type: each parameter is
`attribute=value` with a non-empty token attribute not seen before and a
non-empty token value (quoted-string values are not needed by any claim and
are not modelled). -/
def mediaParamsOK (seen : List Str) : List Str → Bool
  | [] => true
  | p :: rest =>
    let c := cutAtFirst '=' (trimSpace p)
    let key := asciiLower (trimSpace c.1)
    match c.2 with
    | none => false
    | some v =>
      decide (key ≠ []) && key.all isTokenChar && ! (decide (key ∈ seen)) &&
      decide (v ≠ []) && v.all isTokenChar && mediaParamsOK (key :: seen) rest

/-- Modelled from the spec: the content-type half of `Part.validate`
(spec §4.1) is not among the provided source files.  Following the spec's
words, a media type is `type/subtype[;param=value...]` with exactly one
slash, non-empty token type and subtype (so embedded linear white space is
rejected), and parameters with non-empty, pairwise-distinct names. -/
def validMediaType (s : Str) : Bool :=
  match splitOnChar ';' s with
  | [] => false
  | base :: params =>
    let b := asciiLower (trimSpace base)
    (match splitOnChar '/' b with
     | [t, sub] =>
       decide (t ≠ []) && t.all isTokenChar && decide (sub ≠ []) && sub.all isTokenChar
     | _ => false) && mediaParamsOK [] params

/-- `TargetMode` of a relationship: `internal` models `ModeInternal` (the
zero value) and `external` models `ModeExternal`. -/
inductive TargetMode
  | internal
  | external
deriving DecidableEq

/-- `Relationship` from the source. -/
structure Relationship where
  ID : Str
  RelType : Str
  TargetURI : Str
  TargetMode : TargetMode
  sourceURI : Str
deriving DecidableEq

/-- `Part` from the source (`part.go` declares the three exported fields
used throughout the tests: Name, ContentType, Relationships). -/
structure Part where
  Name : Str
  ContentType : Str
  Relationships : List Relationship
deriving DecidableEq

inductive PartError
  | invalidName
  | invalidContentType
deriving DecidableEq

/-- Modelled from the spec: `Part.validate` itself (in the missing
`part.go`) validates the part name and then parses the content type
(spec §4.1); its two checks are modelled by `validPartName` and
`validMediaType`. -/
def Part.validate (p : Part) : Option PartError :=
  if validPartName p.Name then
    if validMediaType p.ContentType then none else some PartError.invalidContentType
  else some PartError.invalidName

/-- Errors of `pkg.add`: a validation error from `Part.validate`, error 112
(duplicated part name) or error 111 (prefix collision). -/
inductive AddError
  | partInvalid (e : PartError)
  | duplicated
  | collision
deriving DecidableEq

/-- The package registry: `parts` maps the uppercased part name to the part. -/
structure pkg where
  parts : List (Str × Part)
  contentTypes : contentTypes
deriving DecidableEq

def pkg.partExists (p : pkg) (partName : Str) : Bool :=
  (mapFind p.parts (asciiUpper partName)).isSome

/-- `checkStringsPrefixCollision` from the source (its Go receiver is
unused): `s2` is a strict path-prefix of `s1` at a segment boundary. -/
def checkStringsPrefixCollision (s1 s2 : Str) : Bool :=
  s2.isPrefixOf s1 && decide (s2.length < s1.length) && decide (s1.get? s2.length = some '/')

/-- The loop of `checkPrefixCollision` over the sorted key list: at every
occurrence of `uri`, test the immediate predecessor and successor. -/
def checkPrefixCollisionKeys (keys : List Str) (uri : Str) : Bool :=
  (List.range keys.length).any fun i =>
    decide (keys.get? i = some uri) &&
    ((decide (0 < i) &&
       (match keys.get? (i - 1) with
        | some prev => checkStringsPrefixCollision uri prev
        | none => false)) ||
     (decide (i < keys.length - 1) &&
       (match keys.get? (i + 1) with
        | some next => checkStringsPrefixCollision next uri
        | none => false)))

/-- `pkg.checkPrefixCollision` from the source: sort the candidate together
with all existing (uppercased) part names and test only sorted neighbours of
the candidate. -/
def pkg.checkPrefixCollision (p : pkg) (uri : Str) : Bool :=
  checkPrefixCollisionKeys (sortStrings (uri :: p.parts.map Prod.fst)) uri

/-- `pkg.add` from the source: validate, reject an existing case-insensitive
name (error 112), reject a prefix collision (error 111), then register the
content type and insert the part under its uppercased name. -/
def pkg.add (p : pkg) (part : Part) : Except AddError pkg :=
  match part.validate with
  | some e => Except.error (AddError.partInvalid e)
  | none =>
    if p.partExists (asciiUpper part.Name) then Except.error AddError.duplicated
    else if p.checkPrefixCollision (asciiUpper part.Name) then Except.error AddError.collision
    else Except.ok
      { parts := mapInsert p.parts (asciiUpper part.Name) part,
        contentTypes := p.contentTypes.add part.Name part.ContentType }


/-- C3 counterexample: a name registered through `contentTypes.add` is not
always resolvable afterwards.  `add "/a.XML"` registers the default under
the lowercased extension `xml`, but `findType "/a.XML"` looks the default up
under the verbatim extension `XML` and fails; and `add "/a"` (no extension)
registers an override under the verbatim name `/a`, but `findType "/a"`
looks overrides up under the uppercased name `/A` and fails. -/
theorem c3_counterexample :
    (contentTypes.add ⟨[], []⟩ ("/a.XML".data) ("a/b".data)).findType ("/a.XML".data) =
      Except.error CtErr.notFound ∧
    (contentTypes.add ⟨[], []⟩ ("/a".data) ("a/b".data)).findType ("/a".data) =
      Except.error CtErr.notFound := by
  constructor
  · decide
  · decide

/-- C3 (amended): `findType` returns the override stored under the
uppercased query name if present; otherwise, when the name has an extension,
the default stored under the extension taken verbatim (without the dot,
case-sensitively); otherwise it fails with the not-found error.  A name
registered via `add` is guaranteed resolvable afterwards only in restricted
cases, such as: the name's extension is non-empty and already lowercase, no
default for it exists yet, and no override is stored under the uppercased
name. -/
theorem c3_findType_characterization :
    (∀ (c : contentTypes) (n t : Str),
      mapFind c.overrides (asciiUpper n) = some t → c.findType n = Except.ok t) ∧
    (∀ (c : contentTypes) (n t : Str),
      mapFind c.overrides (asciiUpper n) = none → goExt n ≠ [] →
      mapFind c.defaults ((goExt n).drop 1) = some t → c.findType n = Except.ok t) ∧
    (∀ (c : contentTypes) (n : Str),
      mapFind c.overrides (asciiUpper n) = none →
      (goExt n = [] ∨ mapFind c.defaults ((goExt n).drop 1) = none) →
      c.findType n = Except.error CtErr.notFound) ∧
    (∀ (c : contentTypes) (n ct : Str),
      goExt n ≠ [] → asciiLower (goExt n) = goExt n →
      mapFind c.defaults ((goExt n).drop 1) = none →
      mapFind c.overrides (asciiUpper n) = none →
      (c.add n ct).findType n = Except.ok (canonicalizeContentType ct)) := by
  refine ⟨?_, ?_, ?_, ?_⟩
  · intro c n t h
    simp only [contentTypes.findType, h]
  · intro c n t h1 h2 h3
    simp only [contentTypes.findType, h1]
    rw [if_pos h2]
    simp only [h3]
  · intro c n h1 h2
    simp only [contentTypes.findType, h1]
    rcases h2 with h2 | h2
    · rw [if_neg (by simp [h2])]
    · by_cases hx : goExt n ≠ []
      · rw [if_pos hx]
        simp only [h2]
      · rw [if_neg hx]
  · intro c n ct h1 h2 h3 h4
    have hlen : ¬ (asciiLower (goExt n)).length = 0 := by
      simp only [asciiLower, List.length_map, List.length_eq_zero]
      exact h1
    simp only [contentTypes.add]
    rw [if_neg hlen, h2, h3]
    simp only [contentTypes.addDefault, contentTypes.findType, h4]
    rw [if_pos h1]
    rw [mapFind_mapInsert_self]

/-- C3 witness: the amended characterization applied at concrete tables: an
override stored under an uppercase key resolves, and a fresh lowercase
extension registered through `add` resolves afterwards. -/
theorem c3_witness :
    contentTypes.findType ⟨[], [("/A".data, "x/y".data)]⟩ ("/a".data) =
      Except.ok ("x/y".data) ∧
    (contentTypes.add ⟨[], []⟩ ("/b.xml".data) ("a/b".data)).findType ("/b.xml".data) =
      Except.ok ("a/b".data) :=
  ⟨c3_findType_characterization.1 _ _ _ (by decide),
   c3_findType_characterization.2.2.2 _ _ _ (by decide) (by decide) (by decide) (by decide)⟩

/-- C4: `contentTypes.add` registers an override for the exact name when the
name has no extension; with an extension, an existing default of a different
(canonicalized) type causes an override for this name and the default is
untouched, an existing equal default causes no change at all, and a missing
default is registered.  Concretely, adding `/a.xml` and `/b.xml` as
`text/plain` yields exactly one default for `xml` and no override, and then
adding `/c.xml` as `text/html` adds one override while the default stays. -/
theorem c4_add_default_override :
    (∀ (c : contentTypes) (n ct : Str), goExt n = [] →
      c.add n ct = c.addOverride n (canonicalizeContentType ct)) ∧
    (∀ (c : contentTypes) (n ct t : Str), goExt n ≠ [] →
      mapFind c.defaults ((asciiLower (goExt n)).drop 1) = some t →
      t ≠ canonicalizeContentType ct →
      c.add n ct = c.addOverride n (canonicalizeContentType ct)) ∧
    (∀ (c : contentTypes) (n ct t : Str), goExt n ≠ [] →
      mapFind c.defaults ((asciiLower (goExt n)).drop 1) = some t →
      t = canonicalizeContentType ct →
      c.add n ct = c) ∧
    (∀ (c : contentTypes) (n ct : Str), goExt n ≠ [] →
      mapFind c.defaults ((asciiLower (goExt n)).drop 1) = none →
      c.add n ct = c.addDefault ((asciiLower (goExt n)).drop 1) (canonicalizeContentType ct)) ∧
    (contentTypes.add (contentTypes.add ⟨[], []⟩ ("/a.xml".data) ("text/plain".data))
        ("/b.xml".data) ("text/plain".data) =
      ⟨[("xml".data, "text/plain".data)], []⟩) ∧
    (contentTypes.add ⟨[("xml".data, "text/plain".data)], []⟩
        ("/c.xml".data) ("text/html".data) =
      ⟨[("xml".data, "text/plain".data)], [("/c.xml".data, "text/html".data)]⟩) := by
  have hlen : ∀ n : Str, goExt n ≠ [] → ¬ (asciiLower (goExt n)).length = 0 := by
    intro n h
    simp only [asciiLower, List.length_map, List.length_eq_zero]
    exact h
  refine ⟨?_, ?_, ?_, ?_, by decide, by decide⟩
  · intro c n ct h
    simp only [contentTypes.add]
    rw [if_pos (by simp [asciiLower, List.length_eq_zero, h])]
  · intro c n ct t h1 h2 h3
    simp only [contentTypes.add]
    rw [if_neg (hlen n h1), h2]
    dsimp only
    rw [if_pos h3]
  · intro c n ct t h1 h2 h3
    simp only [contentTypes.add]
    rw [if_neg (hlen n h1), h2]
    dsimp only
    rw [if_neg (by simp [h3])]
  · intro c n ct h1 h2
    simp only [contentTypes.add]
    rw [if_neg (hlen n h1), h2]

/-- C4 witness: the characterization applied at concrete inputs: a name
without extension gets an override, and a fresh extension gets a default. -/
theorem c4_witness :
    contentTypes.add ⟨[], []⟩ ("/noext".data) ("a/b".data) =
      contentTypes.addOverride ⟨[], []⟩ ("/noext".data)
        (canonicalizeContentType ("a/b".data)) ∧
    contentTypes.add ⟨[], []⟩ ("/a.xml".data) ("a/b".data) =
      contentTypes.addDefault ⟨[], []⟩ ("xml".data)
        (canonicalizeContentType ("a/b".data)) :=
  ⟨c4_add_default_override.1 _ _ _ (by decide),
   c4_add_default_override.2.2.2.1 _ _ _ (by decide) (by decide)⟩

theorem checkStrings_length_lt {s1 s2 : Str}
    (h : checkStringsPrefixCollision s1 s2 = true) : s2.length < s1.length := by
  rw [checkStringsPrefixCollision, Bool.and_eq_true, Bool.and_eq_true] at h
  exact of_decide_eq_true h.1.2

/-- Soundness of the adjacent-entries scan: whenever
`checkPrefixCollision` reports a collision for a candidate, some existing
part name really is in a boundary-prefix relation with the candidate (the
reported neighbour cannot be the candidate itself, because a boundary
prefix is strictly shorter). -/
theorem checkPrefixCollision_sound (p : pkg) (uri : Str)
    (h : p.checkPrefixCollision uri = true) :
    ∃ k ∈ p.parts.map Prod.fst,
      (checkStringsPrefixCollision uri k = true ∨
       checkStringsPrefixCollision k uri = true) := by
  unfold pkg.checkPrefixCollision checkPrefixCollisionKeys at h
  rw [List.any_eq_true] at h
  obtain ⟨i, _, hcol⟩ := h
  rw [Bool.and_eq_true, Bool.or_eq_true, Bool.and_eq_true, Bool.and_eq_true] at hcol
  obtain ⟨_, hcase⟩ := hcol
  rcases hcase with ⟨_, hm⟩ | ⟨_, hm⟩
  · cases hk : (sortStrings (uri :: p.parts.map Prod.fst)).get? (i - 1) with
    | none => rw [hk] at hm; simp at hm
    | some prev =>
      rw [hk] at hm
      dsimp only at hm
      have hmem : prev ∈ uri :: p.parts.map Prod.fst :=
        mem_sortStrings.mp (List.get?_mem hk)
      rcases List.mem_cons.mp hmem with heq | hin
      · subst heq
        exact absurd (checkStrings_length_lt hm) (lt_irrefl _)
      · exact ⟨prev, hin, Or.inl hm⟩
  · cases hk : (sortStrings (uri :: p.parts.map Prod.fst)).get? (i + 1) with
    | none => rw [hk] at hm; simp at hm
    | some next =>
      rw [hk] at hm
      dsimp only at hm
      have hmem : next ∈ uri :: p.parts.map Prod.fst :=
        mem_sortStrings.mp (List.get?_mem hk)
      rcases List.mem_cons.mp hmem with heq | hin
      · subst heq
        exact absurd (checkStrings_length_lt hm) (lt_irrefl _)
      · exact ⟨next, hin, Or.inr hm⟩

/-- The reachable package state used by the C1 counterexample: the result of
adding `/a` and then `/a-b` to the empty package. -/
def c1pkgB : pkg :=
  ⟨[("/A".data, ⟨"/a".data, "a/b".data, []⟩),
    ("/A-B".data, ⟨"/a-b".data, "a/b".data, []⟩)],
   ⟨[], [("/a".data, "a/b".data), ("/a-b".data, "a/b".data)]⟩⟩

/-- C1 counterexample: `add` can succeed although the candidate is in a
boundary-prefix relation with an existing name, so "fails with
CollisionError exactly when" is false.  `-` sorts before `/`, so in the
state reached by adding `/a` and `/a-b` the sorted neighbour of the
candidate `/A/C` is `/A-B`, not its boundary prefix `/A`, and the adjacent
check misses the collision: adding `/a/c` succeeds. -/
theorem c1_counterexample :
    pkg.add ⟨[], ⟨[], []⟩⟩ ⟨"/a".data, "a/b".data, []⟩ =
      Except.ok ⟨[("/A".data, ⟨"/a".data, "a/b".data, []⟩)],
        ⟨[], [("/a".data, "a/b".data)]⟩⟩ ∧
    pkg.add ⟨[("/A".data, ⟨"/a".data, "a/b".data, []⟩)],
        ⟨[], [("/a".data, "a/b".data)]⟩⟩ ⟨"/a-b".data, "a/b".data, []⟩ =
      Except.ok c1pkgB ∧
    (c1pkgB.add ⟨"/a/c".data, "a/b".data, []⟩).isOk = true ∧
    checkStringsPrefixCollision (asciiUpper ("/a/c".data)) ("/A".data) = true ∧
    "/A".data ∈ c1pkgB.parts.map Prod.fst := by
  refine ⟨by decide, by decide, by decide, by decide, by decide⟩

/-- C1 (amended): `add` fails with the collision error (111) only when the
candidate's uppercased name is in a boundary-prefix relation with some
existing part name (the converse fails, see the counterexample); and the
concrete behaviours claimed for `/docs`, `/docs/a.xml` and `/docsx` do
hold: adding `/docs` with `/docs/a.xml` present fails with the collision
error, and so does the reverse, while adding `/docsx` with `/docs/a.xml`
present succeeds. -/
theorem c1_add_collision :
    (∀ (p : pkg) (pt : Part), p.add pt = Except.error AddError.collision →
      ∃ k ∈ p.parts.map Prod.fst,
        (checkStringsPrefixCollision (asciiUpper pt.Name) k = true ∨
         checkStringsPrefixCollision k (asciiUpper pt.Name) = true)) ∧
    pkg.add ⟨[("/DOCS/A.XML".data, ⟨"/docs/a.xml".data, "a/b".data, []⟩)], ⟨[], []⟩⟩
      ⟨"/docs".data, "a/b".data, []⟩ = Except.error AddError.collision ∧
    pkg.add ⟨[("/DOCS".data, ⟨"/docs".data, "a/b".data, []⟩)], ⟨[], []⟩⟩
      ⟨"/docs/a.xml".data, "a/b".data, []⟩ = Except.error AddError.collision ∧
    (pkg.add ⟨[("/DOCS/A.XML".data, ⟨"/docs/a.xml".data, "a/b".data, []⟩)], ⟨[], []⟩⟩
      ⟨"/docsx".data, "a/b".data, []⟩).isOk = true := by
  refine ⟨?_, by decide, by decide, by decide⟩
  intro p pt h
  cases hv : pt.validate with
  | some e =>
    rw [pkg.add, hv] at h
    exact absurd h (by simp)
  | none =>
    rw [pkg.add, hv] at h
    dsimp only at h
    by_cases he : p.partExists (asciiUpper pt.Name) = true
    · rw [if_pos he] at h
      exact absurd h (by simp)
    · rw [if_neg he] at h
      by_cases hc : p.checkPrefixCollision (asciiUpper pt.Name) = true
      · exact checkPrefixCollision_sound p (asciiUpper pt.Name) hc
      · rw [if_neg hc] at h
        exact absurd h (by simp)

/-- C1 witness: the soundness direction applied at a state where the
collision error is actually returned. -/
theorem c1_witness :
    ∃ k ∈ ([("/DOCS/A.XML".data,
        (⟨"/docs/a.xml".data, "a/b".data, []⟩ : Part))] : List (Str × Part)).map Prod.fst,
      (checkStringsPrefixCollision (asciiUpper ("/docs".data)) k = true ∨
       checkStringsPrefixCollision k (asciiUpper ("/docs".data)) = true) :=
  c1_add_collision.1
    ⟨[("/DOCS/A.XML".data, ⟨"/docs/a.xml".data, "a/b".data, []⟩)], ⟨[], []⟩⟩
    ⟨"/docs".data, "a/b".data, []⟩ (by decide)

/-- C2 counterexample: the adjacent-entries check is not equivalent to the
naive pairwise check.  With existing names `/A` and `/A-B` and candidate
`/A/C`, the name `/A-B` sorts strictly between `/A` and `/A/C` (since `-`
sorts before `/`), so neither sorted neighbour of the candidate is in a
boundary-prefix relation with it, yet the existing name `/A` is. -/
theorem c2_counterexample :
    pkg.checkPrefixCollision
      ⟨[("/A".data, ⟨"/a".data, "a/b".data, []⟩),
        ("/A-B".data, ⟨"/a-b".data, "a/b".data, []⟩)], ⟨[], []⟩⟩ ("/A/C".data) = false ∧
    checkStringsPrefixCollision ("/A/C".data) ("/A".data) = true ∧
    "/A".data ∈ ([("/A".data, (⟨"/a".data, "a/b".data, []⟩ : Part)),
        ("/A-B".data, ⟨"/a-b".data, "a/b".data, []⟩)] : List (Str × Part)).map Prod.fst := by
  refine ⟨by decide, by decide, by decide⟩

/-- C2 (amended): the adjacent-entries check is sound — it reports a
violation only if the candidate is in a boundary-prefix relation with some
existing name; the "if" direction of the claimed equivalence fails (see the
counterexample). -/
theorem c2_adjacent_check_sound :
    ∀ (p : pkg) (uri : Str), p.checkPrefixCollision uri = true →
      ∃ k ∈ p.parts.map Prod.fst,
        (checkStringsPrefixCollision uri k = true ∨
         checkStringsPrefixCollision k uri = true) :=
  checkPrefixCollision_sound

/-- C2 witness: soundness applied at a state where the adjacent check does
fire. -/
theorem c2_witness :
    ∃ k ∈ ([("/DOCS".data,
        (⟨"/docs".data, "a/b".data, []⟩ : Part))] : List (Str × Part)).map Prod.fst,
      (checkStringsPrefixCollision ("/DOCS/A.XML".data) k = true ∨
       checkStringsPrefixCollision k ("/DOCS/A.XML".data) = true) :=
  c2_adjacent_check_sound
    ⟨[("/DOCS".data, ⟨"/docs".data, "a/b".data, []⟩)], ⟨[], []⟩⟩
    ("/DOCS/A.XML".data) (by decide)

/-- Processing the serialized `Default` entries: with non-empty, lowercase,
pairwise-distinct extensions they are appended verbatim to the accumulated
defaults. -/
theorem decodeEntries_defaults (ov : List (Str × Str)) :
    ∀ (l acc : List (Str × Str)) (rest : List CTEntry),
    (∀ p ∈ l, p.1 ≠ [] ∧ asciiLower p.1 = p.1) →
    ((acc ++ l).map Prod.fst).Nodup →
    decodeEntries ⟨acc, ov⟩ ((l.map fun e => CTEntry.dflt e.1 e.2) ++ rest) =
      decodeEntries ⟨acc ++ l, ov⟩ rest := by
  intro l
  induction l with
  | nil => intro acc rest _ _; simp
  | cons e t ih =>
    intro acc rest hk nd
    obtain ⟨k, v⟩ := e
    obtain ⟨hne, hlow⟩ := hk (k, v) (by simp)
    have hknotin : k ∉ acc.map Prod.fst := by
      intro hmem
      rw [List.map_append] at nd
      rcases List.nodup_append.mp nd with ⟨_, _, hdisj⟩
      exact (hdisj hmem) (by simp)
    simp only [List.map_cons, List.cons_append, decodeEntries, hlow]
    rw [if_neg hne, if_neg (by rw [mapFind_eq_none_of_not_mem hknotin]; simp)]
    have step : (⟨acc, ov⟩ : contentTypes).addDefault k v = ⟨acc ++ [(k, v)], ov⟩ := by
      simp only [contentTypes.addDefault]
      rw [mapInsert_eq_append_of_not_mem hknotin]
    rw [step]
    simp only [List.append_eq]
    rw [ih (acc ++ [(k, v)]) rest
      (fun p hp => hk p (by simp [hp]))
      (by rwa [List.append_assoc, List.singleton_append])]
    rw [List.append_assoc, List.singleton_append]

/-- Processing the serialized `Override` entries: with uppercase,
pairwise-distinct part names they are appended verbatim to the accumulated
overrides. -/
theorem decodeEntries_overrides (df : List (Str × Str)) :
    ∀ (l acc : List (Str × Str)) (rest : List CTEntry),
    (∀ p ∈ l, asciiUpper p.1 = p.1) →
    ((acc ++ l).map Prod.fst).Nodup →
    decodeEntries ⟨df, acc⟩ ((l.map fun e => CTEntry.ovrd e.1 e.2) ++ rest) =
      decodeEntries ⟨df, acc ++ l⟩ rest := by
  intro l
  induction l with
  | nil => intro acc rest _ _; simp
  | cons e t ih =>
    intro acc rest hk nd
    obtain ⟨k, v⟩ := e
    have hup : asciiUpper k = k := hk (k, v) (by simp)
    have hknotin : k ∉ acc.map Prod.fst := by
      intro hmem
      rw [List.map_append] at nd
      rcases List.nodup_append.mp nd with ⟨_, _, hdisj⟩
      exact (hdisj hmem) (by simp)
    simp only [List.map_cons, List.cons_append, decodeEntries, hup]
    rw [if_neg (by rw [mapFind_eq_none_of_not_mem hknotin]; simp)]
    have step : (⟨df, acc⟩ : contentTypes).addOverride k v = ⟨df, acc ++ [(k, v)]⟩ := by
      simp only [contentTypes.addOverride]
      rw [mapInsert_eq_append_of_not_mem hknotin]
    rw [step]
    simp only [List.append_eq]
    rw [ih (acc ++ [(k, v)]) rest
      (fun p hp => hk p (by simp [hp]))
      (by rwa [List.append_assoc, List.singleton_append])]
    rw [List.append_assoc, List.singleton_append]

/-- C7 (amended): for a table whose default extensions are non-empty,
lowercase and pairwise distinct and whose override part names are uppercase
and pairwise distinct (the shape `decodeContentTypes` itself produces),
decoding the encoding succeeds — whatever iteration order the Go map ranges
used — and the decoded table resolves every name exactly as the original
(so in particular every previously resolvable name keeps its content type).
Without those restrictions the round-trip fails, see the counterexample. -/
theorem c7_roundtrip_amended (c : contentTypes) (orderD orderO : List (Str × Str))
    (hD : orderD.Perm c.defaults) (hO : orderO.Perm c.overrides)
    (hDk : ∀ p ∈ c.defaults, p.1 ≠ [] ∧ asciiLower p.1 = p.1)
    (hOk : ∀ p ∈ c.overrides, asciiUpper p.1 = p.1)
    (hDnd : (c.defaults.map Prod.fst).Nodup)
    (hOnd : (c.overrides.map Prod.fst).Nodup) :
    decodeContentTypes (c.toXML orderD orderO) = Except.ok ⟨orderD, orderO⟩ ∧
    ∀ n, contentTypes.findType ⟨orderD, orderO⟩ n = c.findType n := by
  have ndD : (orderD.map Prod.fst).Nodup := ((hD.map Prod.fst).nodup_iff).mpr hDnd
  have ndO : (orderO.map Prod.fst).Nodup := ((hO.map Prod.fst).nodup_iff).mpr hOnd
  have hdf : ∀ k, mapFind orderD k = mapFind c.defaults k :=
    fun k => mapFind_perm hD ndD k
  have hov : ∀ k, mapFind orderO k = mapFind c.overrides k :=
    fun k => mapFind_perm hO ndO k
  constructor
  · show decodeEntries ⟨[], []⟩ _ = _
    rw [contentTypes.toXML,
      decodeEntries_defaults [] orderD [] _
        (fun p hp => hDk p (hD.subset hp)) (by simpa using ndD)]
    simp only [List.nil_append]
    have h2 : (orderO.map fun e => CTEntry.ovrd e.1 e.2) =
        (orderO.map fun e => CTEntry.ovrd e.1 e.2) ++ [] := by simp
    rw [h2,
      decodeEntries_overrides orderD orderO [] []
        (fun p hp => hOk p (hO.subset hp)) (by simpa using ndO)]
    simp [decodeEntries]
  · intro n
    simp only [contentTypes.findType, hdf, hov]

/-- C7 counterexample: for an arbitrary table the round-trip does not
preserve resolution.  The table with the single default entry
`XML ↦ a/b` resolves `/a.XML` (the extension matches verbatim), but
decoding its encoding lowercases the extension to `xml`, after which
`/a.XML` no longer resolves. -/
theorem c7_counterexample :
    contentTypes.findType ⟨[("XML".data, "a/b".data)], []⟩ ("/a.XML".data) =
      Except.ok ("a/b".data) ∧
    decodeContentTypes (contentTypes.toXML ⟨[("XML".data, "a/b".data)], []⟩
        [("XML".data, "a/b".data)] []) =
      Except.ok ⟨[("xml".data, "a/b".data)], []⟩ ∧
    contentTypes.findType ⟨[("xml".data, "a/b".data)], []⟩ ("/a.XML".data) =
      Except.error CtErr.notFound := by
  refine ⟨by decide, by decide, by decide⟩

/-- C7 witness: the amended round-trip applied to a concrete well-shaped
table. -/
theorem c7_witness :
    decodeContentTypes
        (contentTypes.toXML ⟨[("xml".data, "a/b".data)], [("/A".data, "x/y".data)]⟩
          [("xml".data, "a/b".data)] [("/A".data, "x/y".data)]) =
      Except.ok ⟨[("xml".data, "a/b".data)], [("/A".data, "x/y".data)]⟩ :=
  (c7_roundtrip_amended ⟨[("xml".data, "a/b".data)], [("/A".data, "x/y".data)]⟩
    [("xml".data, "a/b".data)] [("/A".data, "x/y".data)]
    (List.Perm.refl _) (List.Perm.refl _)
    (by decide) (by decide) (by decide) (by decide)).1

/-- C8: the encoder is not deterministic.  `toXML` ranges over the Go maps,
whose iteration order is unspecified and randomized between runs; for a
table with two `Default` entries, both orders below are permutations of the
stored map (i.e. both are possible runs) and they produce different
serialized element lists. -/
theorem c8_encoding_not_deterministic :
    ([("png".data, "a/b".data), ("xml".data, "c/d".data)] : List (Str × Str)).Perm
      (⟨[("png".data, "a/b".data), ("xml".data, "c/d".data)], []⟩ : contentTypes).defaults ∧
    ([("xml".data, "c/d".data), ("png".data, "a/b".data)] : List (Str × Str)).Perm
      (⟨[("png".data, "a/b".data), ("xml".data, "c/d".data)], []⟩ : contentTypes).defaults ∧
    contentTypes.toXML ⟨[("png".data, "a/b".data), ("xml".data, "c/d".data)], []⟩
        [("png".data, "a/b".data), ("xml".data, "c/d".data)] [] ≠
      contentTypes.toXML ⟨[("png".data, "a/b".data), ("xml".data, "c/d".data)], []⟩
        [("xml".data, "c/d".data), ("png".data, "a/b".data)] [] := by
  refine ⟨List.Perm.refl _, List.Perm.swap _ _ _, by decide⟩

/-- Models Go `net/url.URL` (an external collaborator of this package) with
the components the relationship code observes: scheme (lowercased by
`Parse`), opaque part, authority (userinfo/host/port are never split by the
claims, so they are kept as one string), path, raw query and fragment.
`none` for query/fragment means the component is absent. -/
structure GoURL where
  scheme : Str
  opaqueData : Str
  hasAuthority : Bool
  authority : Str
  path : Str
  query : Option Str
  fragment : Option Str
deriving DecidableEq

/-- Models `getScheme` of Go `net/url`: `none` is a parse error (`:` as the
first character), `some none` means no scheme, `some (some (scheme, rest))`
a detected scheme. -/
def getSchemeAux (seen : Str) : Str → Option (Option (Str × Str))
  | [] => some none
  | c :: cs =>
    if isAsciiAlpha c then getSchemeAux (seen ++ [c]) cs
    else if isAsciiDigit c || c = '+' || c = '-' || c = '.' then
      (if seen = [] then some none else getSchemeAux (seen ++ [c]) cs)
    else if c = ':' then (if seen = [] then none else some (some (seen, cs)))
    else some none

/-- Every `%` starts a two-hex-digit escape (Go `net/url` unescaping fails
otherwise when it applies to the path or fragment). -/
def validEscapes : Str → Bool
  | [] => true
  | '%' :: a :: b :: rest =>
    (isAsciiDigit a || ('a' ≤ a && a ≤ 'f') || ('A' ≤ a && a ≤ 'F')) &&
    (isAsciiDigit b || ('a' ≤ b && b ≤ 'f') || ('A' ≤ b && b ≤ 'F')) &&
    validEscapes rest
  | '%' :: _ => false
  | _ :: rest => validEscapes rest

/-- Models Go `url.Parse` for the inputs this package feeds it (URI
references without control characters; authority contents are not
re-validated and escapes are kept verbatim rather than normalized): split
the fragment at the first `#` (an empty fragment is dropped, as `Parse`
does), split the raw query at the first `?`, detect the scheme, then an
authority after `//`, an opaque part (scheme present, rest not starting
with `/`), or a path; a path or fragment with an invalid percent-escape and
a colon inside the first segment of a scheme-less relative path are parse
errors. -/
def parseURL (raw : Str) : Option GoURL :=
  let cutF := cutAtFirst '#' raw
  let frag : Option Str := match cutF.2 with
    | some [] => none
    | x => x
  let cutQ := cutAtFirst '?' cutF.1
  let rest0 := cutQ.1
  let query := cutQ.2
  match getSchemeAux [] rest0 with
  | none => none
  | some schemeRes =>
    let scheme : Str := match schemeRes with
      | some (s, _) => asciiLower s
      | none => []
    let rest : Str := match schemeRes with
      | some (_, r) => r
      | none => rest0
    if ! validEscapes (frag.getD []) then none
    else if ("/".data).isPrefixOf rest then
      if ("//".data).isPrefixOf rest ∧
          (scheme ≠ [] ∨ ¬ (("///".data).isPrefixOf rest)) then
        let afterSlashes := rest.drop 2
        let auth := afterSlashes.takeWhile (fun c => c ≠ '/')
        let p := afterSlashes.dropWhile (fun c => c ≠ '/')
        if validEscapes p then some ⟨scheme, [], true, auth, p, query, frag⟩ else none
      else
        if validEscapes rest then some ⟨scheme, [], false, [], rest, query, frag⟩ else none
    else if scheme ≠ [] ∧ rest ≠ [] then
      some ⟨scheme, rest, false, [], [], query, frag⟩
    else if ':' ∈ rest.takeWhile (fun c => c ≠ '/') then none
    else if validEscapes rest then some ⟨scheme, [], false, [], rest, query, frag⟩ else none

/-- Models `URL.IsAbs`: the URL carries a scheme. -/
def GoURL.isAbs (u : GoURL) : Bool := decide (u.scheme ≠ [])

/-- Models `URL.String` for this model: `scheme:`, then the opaque part, or
`//authority` and the path, then `?query` and `#fragment` when present. -/
def GoURL.toStr (u : GoURL) : Str :=
  (if u.scheme ≠ [] then u.scheme ++ [':'] else []) ++
  (if u.opaqueData ≠ [] then u.opaqueData
   else
     (if u.hasAuthority then '/' :: '/' :: u.authority else []) ++
     (if u.path ≠ [] ∧ ¬ (("/".data).isPrefixOf u.path) ∧ u.hasAuthority then
        '/' :: u.path
      else u.path)) ++
  (match u.query with
   | some q => '?' :: q
   | none => []) ++
  (match u.fragment with
   | some f => '#' :: f
   | none => [])

/-- The portion of `base` up to and including its last `/` (empty when there
is no slash), as in `base[:strings.LastIndex(base, "/")+1]`. -/
def lastSlashPre (base : Str) : Str :=
  (base.reverse.dropWhile (fun c => c ≠ '/')).reverse

/-- Strip one leading `/`, as `strings.TrimPrefix(s, "/")`. -/
def trimLeadingSlash : Str → Str
  | '/' :: rest => rest
  | s => s

/-- Models `resolvePath` of Go `net/url` (RFC 3986 merge and
remove-dot-segments): merge `ref` onto the directory of `base` unless `ref`
is absolute, then drop `.` segments, let `..` pop the previous segment, and
keep a trailing slash when the last segment was `.` or `..`; the result
always starts with exactly one `/`. -/
def resolvePath (base ref : Str) : Str :=
  let full :=
    if ref = [] then base
    else if ¬ (("/".data).isPrefixOf ref) then lastSlashPre base ++ ref
    else ref
  if full = [] then []
  else
    let src := splitOnChar '/' full
    let dst := src.foldl
      (fun d e =>
        if e = ['.'] then d
        else if e = ['.', '.'] then d.dropLast
        else d ++ [e])
      ([] : List Str)
    let dst := match src.getLast? with
      | some e => if e = ['.'] ∨ e = ['.', '.'] then dst ++ [([] : Str)] else dst
      | none => dst
    '/' :: trimLeadingSlash (List.intercalate ("/".data) dst)

/-- Models `URL.ResolveReference` (without userinfo, which this package
never sets): an absolute or authority-carrying reference wins outright, an
opaque reference drops the base's authority and path, and otherwise the
base's authority is kept and the paths are merged; an empty reference path
with no query inherits the base's query (and fragment when absent). -/
def resolveReference (base ref : GoURL) : GoURL :=
  let u0 := { ref with scheme := if ref.scheme = [] then base.scheme else ref.scheme }
  if ref.scheme ≠ [] ∨ ref.hasAuthority then
    { u0 with path := resolvePath ref.path [] }
  else if ref.opaqueData ≠ [] then
    { u0 with hasAuthority := false, authority := [], path := [] }
  else
    let u1 :=
      if ref.path = [] ∧ ref.query = none then
        { u0 with query := base.query,
                  fragment := if ref.fragment = none then base.fragment else ref.fragment }
      else u0
    { u1 with hasAuthority := base.hasAuthority, authority := base.authority,
              path := resolvePath base.path ref.path }

/-- Models Go `strings.EqualFold` for ASCII strings. -/
def goEqualFold (a b : Str) : Bool := decide (asciiUpper a = asciiUpper b)

/-- `isRelationshipURI` from the source: true for the package relationships
part `/_rels/.rels` (also without the leading slash) and for any
`XXX/_rels/YYY.rels` with a non-empty `YYY`. -/
def isRelationshipURI (uri : Str) : Bool :=
  let up := asciiUpper uri
  if ! ((".RELS".data).isSuffixOf up) then false
  else if goEqualFold up ("/_RELS/.RELS".data) then true
  else if goEqualFold up ("_rels/.rels".data) then true
  else
    let segments := splitOnChar '/' up
    let ls := segments.length
    decide (3 ≤ ls) &&
      (match segments.get? (ls - 1), segments.get? (ls - 2) with
       | some lastSeg, some relsSeg =>
         decide (5 < lastSeg.length) && goEqualFold relsSeg ("_RELS".data)
       | _, _ => false)

/-- The distinct error results of relationship validation, one per distinct
Go error value: empty ID, empty type, invalid/empty target URI (M1.28),
absolute internal target (M1.29), invalid/empty source URI (M1.28), a
relationships part as target (M1.26), and a duplicated ID (M1.26). -/
inductive RelErr
  | idEmpty
  | typeEmpty
  | targetInvalid
  | targetAbsolute
  | sourceInvalid
  | relsPartTarget
  | duplicateID
deriving DecidableEq

/-- `validateRelationshipTarget` from the source. -/
def validateRelationshipTarget (sourceURI targetURI : Str) (targetMode : TargetMode) :
    Option RelErr :=
  match parseURL (trimSpace targetURI) with
  | none => some RelErr.targetInvalid
  | some uri =>
    if uri.toStr = [] then some RelErr.targetInvalid
    else if targetMode = TargetMode.internal ∧ uri.isAbs = true then
      some RelErr.targetAbsolute
    else if targetMode ≠ TargetMode.external ∧ uri.isAbs = false then
      match parseURL (trimSpace sourceURI) with
      | none => some RelErr.sourceInvalid
      | some source =>
        if source.toStr = [] then some RelErr.sourceInvalid
        else if isRelationshipURI (resolveReference source uri).toStr then
          some RelErr.relsPartTarget
        else none
    else none

/-- `Relationship.validate` from the source: non-blank ID and type, then the
target constraints. -/
def Relationship.validate (r : Relationship) : Option RelErr :=
  if trimSpace r.ID = [] then some RelErr.idEmpty
  else if trimSpace r.RelType = [] then some RelErr.typeEmpty
  else validateRelationshipTarget r.sourceURI r.TargetURI r.TargetMode

/-- The loop of `validateRelationships`, carrying the set of IDs seen so
far. -/
def validateRelationshipsAux (ids : List Str) : List Relationship → Option RelErr
  | [] => none
  | r :: rest =>
    match r.validate with
    | some e => some e
    | none =>
      if r.ID ∈ ids then some RelErr.duplicateID
      else validateRelationshipsAux (r.ID :: ids) rest

/-- `validateRelationships` from the source: validate each relationship of
one source's list in order and reject a repeated ID within this list. -/
def validateRelationships (rs : List Relationship) : Option RelErr :=
  validateRelationshipsAux [] rs

/-- The serialized `Relationship` element (`Mode` is empty when the
`TargetMode` attribute is omitted). -/
structure relationshipXML where
  ID : Str
  RelType : Str
  TargetURI : Str
  Mode : Str
deriving DecidableEq

/-- `Relationship.toXML` from the source: `TargetMode` is emitted only as
`External`; an internal target not starting with `/`, `\` or `.` gets a `/`
prepended. -/
def Relationship.toXML (r : Relationship) : relationshipXML :=
  let targetMode : Str := if r.TargetMode = TargetMode.external then "External".data else []
  if r.TargetMode = TargetMode.internal then
    if ! (("/".data).isPrefixOf r.TargetURI) &&
       ! (("\\".data).isPrefixOf r.TargetURI) &&
       ! ((".".data).isPrefixOf r.TargetURI) then
      ⟨r.ID, r.RelType, "/".data ++ r.TargetURI, targetMode⟩
    else ⟨r.ID, r.RelType, r.TargetURI, targetMode⟩
  else ⟨r.ID, r.RelType, r.TargetURI, targetMode⟩

/-- The serialized `Relationships` element. -/
structure relationshipsXML where
  xmlns : Str
  RelsXML : List relationshipXML
deriving DecidableEq

/-- `encodeRelationships` from the source, at the level of the encoded
element (the XML writer is an external collaborator): every relationship is
serialized through `toXML`, in list order, under the fixed namespace. -/
def encodeRelationships (rs : List Relationship) : relationshipsXML :=
  ⟨"http://schemas.openxmlformats.org/package/2006/relationships".data,
   rs.map Relationship.toXML⟩

def hexDigitChar (n : Nat) : Char :=
  if n < 10 then Char.ofNat (48 + n) else Char.ofNat (87 + n)

/-- `uniqueRelationshipID` from the source, with the bytes delivered by
`crypto/rand.Read` made explicit as an argument: the eight random bytes are
formatted as lowercase hex (`fmt.Sprintf("%x", b)`) and the token is
returned unconditionally — the function neither receives nor consults any
existing relationship set. -/
def uniqueRelationshipID (randomBytes : List Nat) : Str :=
  (randomBytes.map fun b => [hexDigitChar (b / 16 % 16), hexDigitChar (b % 16)]).flatten


theorem toStr_ne_nil_of_isAbs {u : GoURL} (h : u.isAbs = true) : u.toStr ≠ [] := by
  rw [GoURL.isAbs, decide_eq_true_iff] at h
  rw [GoURL.toStr, if_pos h]
  intro he
  have hlen := congrArg List.length he
  simp only [List.length_append, List.length_cons, List.length_nil] at hlen
  omega

/-- C5: an Internal-mode relationship with an absolute (scheme-carrying)
target URI is rejected with the M1.29 error; an Internal-mode relationship
whose target, resolved against the source, is a relationships-part name is
rejected with the M1.26 constraint error; and the same target passes
validation in External mode. -/
theorem c5_relationship_target_validation :
    (∀ (src tgt : Str) (u : GoURL), parseURL (trimSpace tgt) = some u →
      u.isAbs = true →
      validateRelationshipTarget src tgt TargetMode.internal =
        some RelErr.targetAbsolute) ∧
    (∀ (src tgt : Str) (u s : GoURL), parseURL (trimSpace tgt) = some u →
      u.isAbs = false → u.toStr ≠ [] →
      parseURL (trimSpace src) = some s → s.toStr ≠ [] →
      isRelationshipURI (resolveReference s u).toStr = true →
      validateRelationshipTarget src tgt TargetMode.internal =
        some RelErr.relsPartTarget) ∧
    (∀ (src tgt : Str) (u : GoURL), parseURL (trimSpace tgt) = some u →
      u.toStr ≠ [] →
      validateRelationshipTarget src tgt TargetMode.external = none) := by
  refine ⟨?_, ?_, ?_⟩
  · intro src tgt u hp habs
    simp only [validateRelationshipTarget, hp]
    rw [if_neg (toStr_ne_nil_of_isAbs habs)]
    rw [if_pos (by simp [habs])]
  · intro src tgt u s hp habs hne hps hsne hrel
    simp only [validateRelationshipTarget, hp]
    rw [if_neg hne]
    rw [if_neg (by simp [habs])]
    rw [if_pos (by simp [habs])]
    simp only [hps]
    rw [if_neg hsne, if_pos hrel]
  · intro src tgt u hp hne
    simp only [validateRelationshipTarget, hp]
    rw [if_neg hne]
    rw [if_neg (by simp)]
    rw [if_neg (by simp)]

/-- C5 witness: the three branches at concrete inputs: `http://a.com/b` is
an absolute internal target; `/x/_rels/y.rels` from source `/a.xml` is a
relationships-part internal target; the same target is fine as External. -/
theorem c5_witness :
    validateRelationshipTarget ("/a.xml".data) ("http://a.com/b".data)
      TargetMode.internal = some RelErr.targetAbsolute ∧
    validateRelationshipTarget ("/a.xml".data) ("/x/_rels/y.rels".data)
      TargetMode.internal = some RelErr.relsPartTarget ∧
    validateRelationshipTarget ("/a.xml".data) ("/x/_rels/y.rels".data)
      TargetMode.external = none :=
  ⟨c5_relationship_target_validation.1 _ _
      ⟨"http".data, [], true, "a.com".data, "/b".data, none, none⟩
      (by decide) (by decide),
   c5_relationship_target_validation.2.1 _ _
      ⟨[], [], false, [], "/x/_rels/y.rels".data, none, none⟩
      ⟨[], [], false, [], "/a.xml".data, none, none⟩
      (by decide) (by decide) (by decide) (by decide) (by decide) (by decide),
   c5_relationship_target_validation.2.2 _ _
      ⟨[], [], false, [], "/x/_rels/y.rels".data, none, none⟩
      (by decide) (by decide)⟩

/-- The invariant of the ID-collecting loop of `validateRelationships`:
under element-wise validity it can only return `none` or the duplicate-ID
error, and it returns `none` exactly when the listed IDs are distinct and
disjoint from the IDs already seen. -/
theorem validateRelationshipsAux_spec :
    ∀ (rs : List Relationship) (ids : List Str), (∀ r ∈ rs, r.validate = none) →
    ((validateRelationshipsAux ids rs = none ↔
        ((rs.map Relationship.ID).Nodup ∧ ∀ i ∈ rs.map Relationship.ID, i ∉ ids)) ∧
     (validateRelationshipsAux ids rs = none ∨
      validateRelationshipsAux ids rs = some RelErr.duplicateID)) := by
  intro rs
  induction rs with
  | nil =>
    intro ids _
    exact ⟨by simp [validateRelationshipsAux], Or.inl rfl⟩
  | cons r t ih =>
    intro ids h
    have hr : r.validate = none := h r (by simp)
    have ht : ∀ x ∈ t, x.validate = none := fun x hx => h x (by simp [hx])
    simp only [validateRelationshipsAux, hr]
    by_cases hid : r.ID ∈ ids
    · rw [if_pos hid]
      refine ⟨⟨fun hc => absurd hc (by simp), ?_⟩, Or.inr rfl⟩
      rintro ⟨_, hall⟩
      exact absurd hid (hall r.ID (by simp))
    · rw [if_neg hid]
      obtain ⟨ihiff, ihdic⟩ := ih (r.ID :: ids) ht
      refine ⟨?_, ihdic⟩
      rw [ihiff]
      constructor
      · rintro ⟨hnd, hall⟩
        refine ⟨?_, ?_⟩
        · rw [List.map_cons, List.nodup_cons]
          exact ⟨fun hmem => (hall r.ID hmem) (by simp), hnd⟩
        · intro i hi
          rw [List.map_cons, List.mem_cons] at hi
          rcases hi with h1 | h1
          · subst h1; exact hid
          · exact fun hin => (hall i h1) (by simp [hin])
      · rintro ⟨hnd, hall⟩
        rw [List.map_cons, List.nodup_cons] at hnd
        refine ⟨hnd.2, ?_⟩
        intro i hi
        rw [List.mem_cons]
        push_neg
        constructor
        · intro he; subst he; exact hnd.1 hi
        · exact hall i (by simp [hi])

/-- C6: for one source's relationship list whose relationships are
individually valid, validation fails with the duplicate-ID error exactly
when two relationships of the list share an ID; and since validation runs
per list, two lists with internally distinct IDs both pass — whatever IDs
they share with each other — so uniqueness is per-source only. -/
theorem c6_duplicate_ids :
    (∀ rs : List Relationship, (∀ r ∈ rs, r.validate = none) →
      (validateRelationships rs = some RelErr.duplicateID ↔
        ¬ (rs.map Relationship.ID).Nodup)) ∧
    (∀ rs1 rs2 : List Relationship,
      (∀ r ∈ rs1, r.validate = none) → (∀ r ∈ rs2, r.validate = none) →
      (rs1.map Relationship.ID).Nodup → (rs2.map Relationship.ID).Nodup →
      (validateRelationships rs1 = none ∧ validateRelationships rs2 = none)) := by
  have main : ∀ rs : List Relationship, (∀ r ∈ rs, r.validate = none) →
      (validateRelationships rs = none ↔ (rs.map Relationship.ID).Nodup) := by
    intro rs h
    rw [validateRelationships, (validateRelationshipsAux_spec rs [] h).1]
    simp
  constructor
  · intro rs h
    obtain ⟨hiff, hdic⟩ := validateRelationshipsAux_spec rs [] h
    rw [validateRelationships]
    constructor
    · intro hdup hnd
      have hnone : validateRelationshipsAux [] rs = none := by
        rw [hiff]; exact ⟨hnd, by simp⟩
      rw [hnone] at hdup
      exact absurd hdup (by simp)
    · intro hnnd
      rcases hdic with hnone | hdup
      · rw [hiff] at hnone
        exact absurd hnone.1 hnnd
      · exact hdup
  · intro rs1 rs2 h1 h2 nd1 nd2
    exact ⟨(main rs1 h1).mpr nd1, (main rs2 h2).mpr nd2⟩

/-- C6 witness: two individually valid relationships of the same source
sharing the ID `a` fail with the duplicate-ID error. -/
theorem c6_witness :
    validateRelationships
      [⟨"a".data, "t".data, "/b.xml".data, TargetMode.internal, "/".data⟩,
       ⟨"a".data, "t2".data, "/c.xml".data, TargetMode.internal, "/".data⟩] =
      some RelErr.duplicateID :=
  (c6_duplicate_ids.1
    [⟨"a".data, "t".data, "/b.xml".data, TargetMode.internal, "/".data⟩,
     ⟨"a".data, "t2".data, "/c.xml".data, TargetMode.internal, "/".data⟩]
    (by decide)).mpr (by decide)

/-- C9 (code bug): `uniqueRelationshipID` performs no uniqueness check at
all — it formats the eight random bytes and returns the token, with no
access to the source's existing set.  Concretely: a source already holds a
valid relationship whose (decoded) ID is `0000000000000000`; when the
random bytes are all zero, the freshly generated ID is exactly that
existing ID, and nothing rejects it. -/
theorem c9_generated_id_not_checked :
    validateRelationships
      [⟨"0000000000000000".data, "t".data, "/b.xml".data, TargetMode.internal, "/".data⟩] =
      none ∧
    uniqueRelationshipID (List.replicate 8 0) = "0000000000000000".data ∧
    uniqueRelationshipID (List.replicate 8 0) ∈
      ([⟨"0000000000000000".data, "t".data, "/b.xml".data, TargetMode.internal, "/".data⟩] :
        List Relationship).map Relationship.ID := by
  refine ⟨by decide, by decide, by decide⟩

/-- C10: serialization of an Internal relationship whose stored target does
not begin with `/`, `\` or `.` prepends `/`, so the emitted target differs
from the stored one; External relationships, and Internal ones whose target
already begins with one of those characters, are emitted verbatim; and
`encodeRelationships` emits exactly the `toXML` image of the list. -/
theorem c10_toXML_internal_target_rewrite :
    (∀ r : Relationship, r.TargetMode = TargetMode.internal →
      (("/".data).isPrefixOf r.TargetURI) = false →
      (("\\".data).isPrefixOf r.TargetURI) = false →
      ((".".data).isPrefixOf r.TargetURI) = false →
      ((r.toXML).TargetURI = "/".data ++ r.TargetURI ∧
       (r.toXML).TargetURI ≠ r.TargetURI)) ∧
    (∀ r : Relationship, r.TargetMode = TargetMode.external →
      (r.toXML).TargetURI = r.TargetURI) ∧
    (∀ r : Relationship, r.TargetMode = TargetMode.internal →
      ((("/".data).isPrefixOf r.TargetURI) = true ∨
       (("\\".data).isPrefixOf r.TargetURI) = true ∨
       ((".".data).isPrefixOf r.TargetURI) = true) →
      (r.toXML).TargetURI = r.TargetURI) ∧
    (∀ rs : List Relationship,
      (encodeRelationships rs).RelsXML = rs.map Relationship.toXML) := by
  refine ⟨?_, ?_, ?_, fun rs => rfl⟩
  · intro r h h1 h2 h3
    constructor
    · simp [Relationship.toXML, h, h1, h2, h3]
    · simp only [Relationship.toXML, h, h1, h2, h3]
      simp
  · intro r h
    simp [Relationship.toXML, h]
  · intro r h hpre
    rcases hpre with h1 | h1 | h1 <;> simp [Relationship.toXML, h, h1]

/-- C10 witness: a concrete Internal relationship with target `b.xml` is
emitted as `/b.xml` (differing from the stored target), and a concrete
External relationship is emitted verbatim. -/
theorem c10_witness :
    ((⟨"i".data, "t".data, "b.xml".data, TargetMode.internal, "/".data⟩ :
        Relationship).toXML.TargetURI = "/".data ++ "b.xml".data ∧
     (⟨"i".data, "t".data, "b.xml".data, TargetMode.internal, "/".data⟩ :
        Relationship).toXML.TargetURI ≠ "b.xml".data) ∧
    (⟨"i".data, "t".data, "http://x/y".data, TargetMode.external, "/".data⟩ :
        Relationship).toXML.TargetURI = "http://x/y".data :=
  ⟨c10_toXML_internal_target_rewrite.1 _ rfl (by decide) (by decide) (by decide),
   c10_toXML_internal_target_rewrite.2.1 _ rfl⟩

end gopc
